import Mathlib

/-!
Shallow embedding of the `walkers.py` repository (walkers, colormaps,
interpolation utilities) and proofs about its claims.

Python floats are modelled by exact rationals (`ℚ`); positions are
3-dimensional vectors `Fin 3 → ℚ`, matching the data model's fixed
dimensionality.  Euclidean distance (`Walker.distance_from`, which uses
`math.sqrt`) lives in `ℝ`.

The Python `WalkingSystem` stores a dict `{walker: {related_walker: coeff}}`
keyed by object identity, iterated in insertion order.  The embedding keeps
the walkers in a list (insertion order) and identifies a walker by its index;
the relation dicts become a list of association lists aligned with the walker
list.  In-place mutation of `walker.position` during `next_state` is modelled
by threading the walker list through folds: each micro-update (`relStep`)
reads the *current* list, exactly as the aliased Python lists do.
-/

namespace Walkers

/-- Coordinate vector of a walker: Python position lists of length 3. -/
abbrev Vec3 := Fin 3 → ℚ

/-- Per-walker relation dict, in insertion order: pairs of the related
walker's index and the relation coefficient. -/
abbrev Relations := List (Nat × ℚ)

/-- Python `utils.clamp(x, inf, sup)`: restrict `x` to `[inf, sup]`.
Python defaults are `inf=0, sup=1`; callers here pass both explicitly. -/
def clamp (x inf sup : ℚ) : ℚ :=
  if x < inf then inf else if x > sup then sup else x

/-- Python `utils.lin_interp(x, x_min, x_max, y_min, y_max)`: affine remap of
`x` from `[x_min, x_max]` to `[y_min, y_max]`. -/
def lin_interp (x x_min x_max y_min y_max : ℚ) : ℚ :=
  (x - x_min) * (y_max - y_min) / (x_max - x_min) + y_min

/-- Python `colormaps.ColorMap`: two endpoint RGB colors, channels indexed by
`Fin 3`.  The Python attribute `end` is spelled `end_` (Lean keyword). -/
structure ColorMap where
  start : Fin 3 → ℚ
  end_ : Fin 3 → ℚ
deriving DecidableEq

/-- Python `ColorMap.__call__(x, start, end, max_out)`: channelwise linear
interpolation, divided by 255, scaled by `max_out`, clamped to `[0, max_out]`.
Python defaults are `start=0, end=1, max_out=255`. -/
def ColorMap.call (c : ColorMap) (x start end_ max_out : ℚ) : Fin 3 → ℚ :=
  fun i => clamp (lin_interp x start end_ (c.start i) (c.end_ i) / 255 * max_out) 0 max_out

/-- Python `colormaps.black`: the colormap from black to black. -/
def black : ColorMap := ⟨fun _ => 0, fun _ => 0⟩

/-- Python `walkers.Walker`: immutable `start_position`, mutable `position`. -/
structure Walker where
  start_position : Vec3
  position : Vec3
deriving DecidableEq

/-- Python `Walker.__init__(position)`: both fields start out as the given
position. -/
def Walker.init (p : Vec3) : Walker := ⟨p, p⟩

/-- Python `Walker.distance_from(other)`: Euclidean distance
`sqrt(sum((other.position[i] - self.position[i])**2))`. -/
noncomputable def Walker.distance_from (w other : Walker) : ℝ :=
  Real.sqrt (∑ i : Fin 3, (((other.position i : ℝ)) - ((w.position i : ℝ))) ^ 2)

/-- Python `walkers.WalkingSystem`: the walkers dict (split into the walker
list and the aligned relation lists), the iteration count, the colormap, and
the private `__curves` / `__rings` fields behind the `curves` / `rings`
properties (`none` models Python `None`). -/
structure WalkingSystem where
  walkers : List Walker
  relations : List Relations
  iterations : Nat
  cmap : ColorMap
  curvesData : Option (List (Fin 3 → List ℚ))
  ringsData : Option (List (Fin 3 → List ℚ))
deriving DecidableEq

/-- Python `WalkingSystem.__init__`: stores the walkers dict, iterations and
cmap, and sets both private vectrices fields to `None` (through the setters). -/
def WalkingSystem.init (walkers : List Walker) (relations : List Relations)
    (iterations : Nat) (cmap : ColorMap) : WalkingSystem :=
  ⟨walkers, relations, iterations, cmap, none, none⟩

/-- Python `WalkingSystem.curves` property: raises `ValueError` when the
private field is `None`, returns it otherwise. -/
def WalkingSystem.curves (s : WalkingSystem) : Except String (List (Fin 3 → List ℚ)) :=
  match s.curvesData with
  | none => Except.error "No curves vectrices values found.Please use compute_3d_vectrices() first."
  | some c => Except.ok c

/-- Python `WalkingSystem.rings` property: raises `ValueError` when the
private field is `None`, returns it otherwise. -/
def WalkingSystem.rings (s : WalkingSystem) : Except String (List (Fin 3 → List ℚ)) :=
  match s.ringsData with
  | none => Except.error "No rings vectrices values found.Please use compute_3d_vectrices() first."
  | some r => Except.ok r

/-- Python `WalkingSystem.get_current_state`: the tuple of all walker
positions, in walker order. -/
def WalkingSystem.get_current_state (s : WalkingSystem) : List Vec3 :=
  s.walkers.map Walker.position

/-- One pass of the inner loop of `next_state` for the walker at `selfIdx`
and one relation entry `r`: `pos[i] += (related.position[i] - pos[i]) * coeff`
for every axis `i`.  The related walker's position is read from the *current*
walker list, so a related walker updated earlier in the same iteration is
seen updated, and a self-relation reads the walker's own current position
(the Python lists are aliased).  A dangling index leaves the increment at 0. -/
def relStep (ws : List Walker) (selfIdx : Nat) (r : Nat × ℚ) : List Walker :=
  match ws.get? selfIdx with
  | none => ws
  | some w =>
    let pos := w.position
    let target : Vec3 :=
      match ws.get? r.1 with
      | some w2 => w2.position
      | none => pos
    ws.set selfIdx { w with position := fun i => pos i + (target i - pos i) * r.2 }

/-- The body of `next_state`'s outer loop for one walker: fold its relation
dict (in insertion order) through `relStep`, mutating the walker list. -/
def walkerStep (rels : List Relations) (ws : List Walker) (selfIdx : Nat) : List Walker :=
  (rels.getD selfIdx []).foldl (fun acc r => relStep acc selfIdx r) ws

/-- Python `WalkingSystem.next_state`: iterate over all walkers in insertion
order, updating each one in place via its relations, then return the new
current state (the state is recovered by `get_current_state`). -/
def WalkingSystem.next_state (s : WalkingSystem) : WalkingSystem :=
  { s with walkers := (List.range s.walkers.length).foldl (walkerStep s.relations) s.walkers }

/-- Calling `next_state` `n` times in sequence. -/
def WalkingSystem.advance : Nat → WalkingSystem → WalkingSystem
  | 0, s => s
  | n + 1, s => WalkingSystem.advance n s.next_state

/-- The list of states the Python generator `states()` yields when asked for
`n` items: yield the current state, then advance, repeated `n` times. -/
def statesFrom : Nat → WalkingSystem → List (List Vec3)
  | 0, _ => []
  | n + 1, s => s.get_current_state :: statesFrom n s.next_state

/-- Python `WalkingSystem.states()`: the (fully consumed) generator yields
exactly `iterations` states; consuming it advances the system each time. -/
def WalkingSystem.states (s : WalkingSystem) : List (List Vec3) :=
  statesFrom s.iterations s

/-- One ring before closing: for each axis `j`, the coordinates
`position[j]` of all walkers of one state, in walker order
(`ring[j % 3].append(coord)` with 3-dimensional positions). -/
def makeRing (st : List Vec3) : Fin 3 → List ℚ :=
  fun j => st.map (fun p => p j)

/-- The ring-closing loop `ring[i].append(ring[i][0])`: appends the first
element of each axis list; `ring[i][0]` raises `IndexError` (modelled by
`none`) when an axis list is empty. -/
def closeRing (ring : Fin 3 → List ℚ) : Option (Fin 3 → List ℚ) :=
  if _h : ∀ j, ring j ≠ [] then some (fun j => ring j ++ [(ring j).headD 0]) else none

/-- The per-state ring construction of `compute_3d_vectrices`, over the whole
state sequence; fails (propagating the `IndexError`) as soon as one ring
cannot be closed. -/
def buildRings : List (List Vec3) → Option (List (Fin 3 → List ℚ))
  | [] => some []
  | st :: sts =>
    match closeRing (makeRing st), buildRings sts with
    | some r, some rs => some (r :: rs)
    | _, _ => none

/-- The curves accumulated by `compute_3d_vectrices`:
`curves[i % num_walkers][j % 3].append(coord)` over all states leaves, for
walker `i` and axis `j`, the list of that walker's `j`-coordinates across the
state sequence in order (every state has exactly `num_walkers` positions of
dimension 3). -/
def buildCurves (numWalkers : Nat) (sts : List (List Vec3)) : List (Fin 3 → List ℚ) :=
  (List.range numWalkers).map (fun i => fun j => sts.map (fun st => (st.getD i (fun _ => 0)) j))

/-- Python `WalkingSystem.compute_3d_vectrices`: consume the state generator
once, accumulating curves and closed rings; on success store both on the
system (whose walkers have been advanced `iterations` steps by the consumed
generator) and return them.  `none` models the `IndexError` raised by
`ring[i][0]` on an empty axis list. -/
def WalkingSystem.compute_3d_vectrices (s : WalkingSystem) :
    Option (List (Fin 3 → List ℚ) × List (Fin 3 → List ℚ) × WalkingSystem) :=
  match buildRings s.states with
  | none => none
  | some rngs =>
    let crvs := buildCurves s.walkers.length s.states
    some (crvs, rngs,
      { WalkingSystem.advance s.iterations s with
          curvesData := some crvs, ringsData := some rngs })

/-! Concrete systems used by the claims and their witnesses. -/

/-- The walker A of the spec's concrete scenario, at (0, 0, 0). -/
def walkerA : Walker := Walker.init ![0, 0, 0]

/-- The walker B of the spec's concrete scenario, at (10, 0, 0). -/
def walkerB : Walker := Walker.init ![10, 0, 0]

/-- The spec's concrete scenario: walkers A and B with relation coefficients
A→B = 0.5 and B→A = 0.5, one iteration. -/
def sysC1 : WalkingSystem :=
  WalkingSystem.init [walkerA, walkerB] [[(1, 1/2)], [(0, 1/2)]] 1 black

/-- A one-walker system with no relations and one iteration. -/
def sysT : WalkingSystem :=
  WalkingSystem.init [Walker.init ![1, 2, 3]] [[]] 1 black

/-- The curves `compute_3d_vectrices` produces on `sysT`. -/
def crvsT : List (Fin 3 → List ℚ) := buildCurves sysT.walkers.length sysT.states

/-- The rings `compute_3d_vectrices` produces on `sysT`. -/
def rngsT : List (Fin 3 → List ℚ) := [fun j => [(![1, 2, 3] : Vec3) j, (![1, 2, 3] : Vec3) j]]

/-- The system state after `compute_3d_vectrices` has run on `sysT`. -/
def sysT' : WalkingSystem :=
  ⟨[Walker.init ![1, 2, 3]], [[]], 1, black, some crvsT, some rngsT⟩

/-- A two-walker system whose relation coefficients are all 0. -/
def sysZ : WalkingSystem :=
  WalkingSystem.init [walkerA, walkerB] [[(1, 0)], [(0, 0)]] 5 black

/-- A two-walker system with integer relation coefficients. -/
def sysC8 : WalkingSystem :=
  WalkingSystem.init [walkerA, walkerB] [[(1, 3)], [(0, 2)]] 1 black

/-- A colormap with channel values spread over [0, 255]. -/
def cmap7 : ColorMap := ⟨![0, 100, 255], ![255, 0, 10]⟩

/-! Definitions for the two-walker convergence/divergence analysis (claim C4):
the system of two walkers `A` at `p` and `B` at `q` with the symmetric
relation coefficient `r`, and its position pair after `n` steps. -/

/-- Two walkers at `p` and `q` related symmetrically by coefficient `r`
(relations `A→B = B→A = r`), as built by the Python constructor. -/
def twoWalkerSys (p q : Vec3) (r : ℚ) : WalkingSystem :=
  WalkingSystem.init [Walker.init p, Walker.init q] [[(1, r)], [(0, r)]] 100 black

/-- The pair of positions of the two walkers after `n` calls to `next_state`:
walker A moves first, then walker B reads A's already-updated position
(the sequential in-place update of `next_state`). -/
def twoPos (p q : Vec3) (r : ℚ) : Nat → Vec3 × Vec3
  | 0 => (p, q)
  | n + 1 =>
    let ab := twoPos p q r n
    (fun i => ab.1 i + (ab.2 i - ab.1 i) * r,
     fun i => ab.2 i + ((ab.1 i + (ab.2 i - ab.1 i) * r) - ab.2 i) * r)

/-- The distance `A.distance_from(B)` between the two walkers of
`twoWalkerSys p q r` after `n` calls to `next_state`. -/
noncomputable def twoDist (p q : Vec3) (r : ℚ) (n : Nat) : ℝ :=
  Walker.distance_from
    ((WalkingSystem.advance n (twoWalkerSys p q r)).walkers.getD 0 (Walker.init p))
    ((WalkingSystem.advance n (twoWalkerSys p q r)).walkers.getD 1 (Walker.init q))

/-! General list helper lemmas. -/

/-- Setting an index to the value it already holds is the identity. -/
theorem set_eq_of_get? : ∀ (l : List α) (n : Nat) (a : α), l.get? n = some a → l.set n a = l
  | [], _, _, h => by simp at h
  | x :: xs, 0, a, h => by
    simp only [List.get?, Option.some.injEq] at h
    simp [h]
  | x :: xs, n + 1, a, h => by
    simp only [List.get?] at h
    simp [set_eq_of_get? xs n a h]

/-! Shape lemmas about `relStep`, `walkerStep`, `next_state` and `advance`:
the walker count never changes, `start_position` fields never change, and the
non-walker fields of the system are untouched. -/

theorem relStep_length (ws : List Walker) (k : Nat) (r : Nat × ℚ) :
    (relStep ws k r).length = ws.length := by
  unfold relStep
  cases h : ws.get? k <;> simp [h]

theorem foldl_relStep_length (rl : Relations) :
    ∀ (ws : List Walker) (k : Nat),
      (rl.foldl (fun acc r => relStep acc k r) ws).length = ws.length := by
  induction rl with
  | nil => intro ws k; rfl
  | cons r rl ih =>
    intro ws k
    rw [List.foldl_cons, ih, relStep_length]

theorem walkerStep_length (rels : List Relations) (ws : List Walker) (k : Nat) :
    (walkerStep rels ws k).length = ws.length :=
  foldl_relStep_length _ ws k

theorem foldl_walkerStep_length (rels : List Relations) (ks : List Nat) :
    ∀ ws : List Walker, (ks.foldl (walkerStep rels) ws).length = ws.length := by
  induction ks with
  | nil => intro ws; rfl
  | cons k ks ih =>
    intro ws
    rw [List.foldl_cons, ih, walkerStep_length]

theorem next_state_walkers_length (s : WalkingSystem) :
    s.next_state.walkers.length = s.walkers.length :=
  foldl_walkerStep_length _ _ _

theorem advance_walkers_length : ∀ (n : Nat) (s : WalkingSystem),
    (WalkingSystem.advance n s).walkers.length = s.walkers.length
  | 0, _ => rfl
  | n + 1, s => (advance_walkers_length n s.next_state).trans (next_state_walkers_length s)

theorem relStep_map_start (ws : List Walker) (k : Nat) (r : Nat × ℚ) :
    (relStep ws k r).map Walker.start_position = ws.map Walker.start_position := by
  unfold relStep
  cases h : ws.get? k with
  | none => rfl
  | some w =>
    simp only [List.map_set]
    exact set_eq_of_get? _ _ _ (by rw [List.get?_map, h]; rfl)

theorem foldl_relStep_map_start (rl : Relations) :
    ∀ (ws : List Walker) (k : Nat),
      (rl.foldl (fun acc r => relStep acc k r) ws).map Walker.start_position
        = ws.map Walker.start_position := by
  induction rl with
  | nil => intro ws k; rfl
  | cons r rl ih =>
    intro ws k
    rw [List.foldl_cons, ih, relStep_map_start]

theorem walkerStep_map_start (rels : List Relations) (ws : List Walker) (k : Nat) :
    (walkerStep rels ws k).map Walker.start_position = ws.map Walker.start_position :=
  foldl_relStep_map_start _ ws k

theorem foldl_walkerStep_map_start (rels : List Relations) (ks : List Nat) :
    ∀ ws : List Walker,
      (ks.foldl (walkerStep rels) ws).map Walker.start_position
        = ws.map Walker.start_position := by
  induction ks with
  | nil => intro ws; rfl
  | cons k ks ih =>
    intro ws
    rw [List.foldl_cons, ih, walkerStep_map_start]

theorem next_state_map_start (s : WalkingSystem) :
    s.next_state.walkers.map Walker.start_position = s.walkers.map Walker.start_position :=
  foldl_walkerStep_map_start _ _ _

theorem advance_map_start : ∀ (n : Nat) (s : WalkingSystem),
    (WalkingSystem.advance n s).walkers.map Walker.start_position
      = s.walkers.map Walker.start_position
  | 0, _ => rfl
  | n + 1, s => (advance_map_start n s.next_state).trans (next_state_map_start s)

/-! Lemmas about the state sequence. -/

theorem statesFrom_length : ∀ (n : Nat) (s : WalkingSystem), (statesFrom n s).length = n
  | 0, _ => rfl
  | n + 1, s => by
    simp only [statesFrom, List.length_cons, statesFrom_length n s.next_state]

theorem statesFrom_get? : ∀ (n : Nat) (s : WalkingSystem) (i : Nat), i < n →
    (statesFrom n s).get? i = some ((WalkingSystem.advance i s).get_current_state)
  | 0, _, i, h => absurd h (Nat.not_lt_zero i)
  | n + 1, s, 0, _ => rfl
  | n + 1, s, i + 1, h =>
    statesFrom_get? n s.next_state i (Nat.lt_of_succ_lt_succ h)

theorem statesFrom_mem_length : ∀ (n : Nat) (s : WalkingSystem) (st : List Vec3),
    st ∈ statesFrom n s → st.length = s.walkers.length
  | 0, _, _, h => absurd h (List.not_mem_nil _)
  | n + 1, s, st, h => by
    rcases List.mem_cons.mp h with h | h
    · rw [h]; exact List.length_map _ _
    · exact (statesFrom_mem_length n s.next_state st h).trans (next_state_walkers_length s)

/-! The action of `next_state` on a two-walker system with relations
`A→B = r1`, `B→A = r2`: walker A is updated first, then walker B reads A's
already-updated position (sequential in-place update). -/

theorem next_state_two (p q a b : Vec3) (r1 r2 : ℚ) (it : Nat) (cm : ColorMap)
    (cd rd : Option (List (Fin 3 → List ℚ))) :
    (WalkingSystem.mk [⟨p, a⟩, ⟨q, b⟩] [[(1, r1)], [(0, r2)]] it cm cd rd).next_state
      = WalkingSystem.mk
          [⟨p, fun i => a i + (b i - a i) * r1⟩,
           ⟨q, fun i => b i + ((a i + (b i - a i) * r1) - b i) * r2⟩]
          [[(1, r1)], [(0, r2)]] it cm cd rd := rfl

theorem advance_succ : ∀ (n : Nat) (s : WalkingSystem),
    WalkingSystem.advance (n + 1) s = (WalkingSystem.advance n s).next_state
  | 0, _ => rfl
  | n + 1, s => advance_succ n s.next_state

theorem twoPos_succ_fst (p q : Vec3) (r : ℚ) (n : Nat) :
    (twoPos p q r (n + 1)).1
      = fun i => (twoPos p q r n).1 i + ((twoPos p q r n).2 i - (twoPos p q r n).1 i) * r := rfl

theorem twoPos_succ_snd (p q : Vec3) (r : ℚ) (n : Nat) :
    (twoPos p q r (n + 1)).2
      = fun i => (twoPos p q r n).2 i
          + (((twoPos p q r n).1 i + ((twoPos p q r n).2 i - (twoPos p q r n).1 i) * r)
              - (twoPos p q r n).2 i) * r := rfl

theorem advance_twoWalkerSys (p q : Vec3) (r : ℚ) : ∀ n : Nat,
    WalkingSystem.advance n (twoWalkerSys p q r)
      = WalkingSystem.mk [⟨p, (twoPos p q r n).1⟩, ⟨q, (twoPos p q r n).2⟩]
          [[(1, r)], [(0, r)]] 100 black none none
  | 0 => rfl
  | n + 1 => by
    rw [advance_succ, advance_twoWalkerSys p q r n, next_state_two]
    rfl

/-- After each step the coordinatewise difference of the two walkers is
scaled by `(1 - r)^2`. -/
theorem twoPos_diff (p q : Vec3) (r : ℚ) : ∀ (n : Nat) (i : Fin 3),
    (twoPos p q r n).2 i - (twoPos p q r n).1 i = ((1 - r) ^ 2) ^ n * (q i - p i)
  | 0, i => by simp [twoPos]
  | n + 1, i => by
    have ih := twoPos_diff p q r n i
    simp only [twoPos_succ_fst, twoPos_succ_snd]
    linear_combination (1 - r) ^ 2 * ih

/-- Closed form of the two-walker distance: a geometric sequence with
ratio `(1 - r)^2`. -/
theorem twoDist_eq (p q : Vec3) (r : ℚ) (n : Nat) :
    twoDist p q r n
      = ((1 - (r : ℝ)) ^ 2) ^ n * Real.sqrt (∑ i : Fin 3, ((q i : ℝ) - (p i : ℝ)) ^ 2) := by
  unfold twoDist
  rw [advance_twoWalkerSys]
  show Walker.distance_from ⟨p, (twoPos p q r n).1⟩ ⟨q, (twoPos p q r n).2⟩ = _
  unfold Walker.distance_from
  have hdi : ∀ i : Fin 3,
      (((twoPos p q r n).2 i : ℝ)) - (((twoPos p q r n).1 i : ℝ))
        = ((1 - (r : ℝ)) ^ 2) ^ n * ((q i : ℝ) - (p i : ℝ)) := by
    intro i
    exact_mod_cast congrArg (fun x : ℚ => (x : ℝ)) (twoPos_diff p q r n i)
  rw [show (∑ i : Fin 3, (((twoPos p q r n).2 i : ℝ) - ((twoPos p q r n).1 i : ℝ)) ^ 2)
      = (((1 - (r : ℝ)) ^ 2) ^ n) ^ 2 * ∑ i : Fin 3, ((q i : ℝ) - (p i : ℝ)) ^ 2 by
    rw [Finset.mul_sum]
    exact Finset.sum_congr rfl fun i _ => by rw [hdi i]; ring]
  rw [Real.sqrt_mul (sq_nonneg _), Real.sqrt_sq (pow_nonneg (sq_nonneg _) n)]

/-- The squared-distance sum is positive for distinct positions. -/
theorem sum_sq_pos_of_ne (p q : Vec3) (hpq : p ≠ q) :
    0 < ∑ i : Fin 3, ((q i : ℝ) - (p i : ℝ)) ^ 2 := by
  obtain ⟨i, hi⟩ : ∃ i, p i ≠ q i := by
    by_contra hc
    push_neg at hc
    exact hpq (funext hc)
  refine Finset.sum_pos' (fun j _ => sq_nonneg _) ⟨i, Finset.mem_univ i, ?_⟩
  have hne : (q i : ℝ) - (p i : ℝ) ≠ 0 := by
    rw [sub_ne_zero]
    exact_mod_cast Ne.symm hi
  exact sq_pos_of_ne_zero hne

/-! Lemmas about vanishing and self-directed relations. -/

/-- A relation with coefficient 0 never moves a walker. -/
theorem relStep_coeff_zero (ws : List Walker) (k : Nat) (r : Nat × ℚ) (h : r.2 = 0) :
    relStep ws k r = ws := by
  unfold relStep
  cases hg : ws.get? k with
  | none => rfl
  | some w =>
    simp only [h, mul_zero, add_zero]
    exact set_eq_of_get? _ _ _ hg

/-- A self-relation never moves a walker: the increment reads the walker's
own (current) position, so it vanishes for every coefficient. -/
theorem relStep_self (ws : List Walker) (k : Nat) (c : ℚ) :
    relStep ws k (k, c) = ws := by
  unfold relStep
  cases hg : ws.get? k with
  | none => rfl
  | some w =>
    simp only [hg]
    have hfun : (fun i => w.position i + (w.position i - w.position i) * c) = w.position := by
      funext i
      ring
    rw [hfun]
    exact set_eq_of_get? _ _ _ hg

theorem foldl_relStep_zero (rl : Relations) (hz : ∀ pr ∈ rl, pr.2 = 0) :
    ∀ (ws : List Walker) (k : Nat), rl.foldl (fun acc r => relStep acc k r) ws = ws := by
  induction rl with
  | nil => intro ws _; rfl
  | cons r rl ih =>
    intro ws k
    rw [List.foldl_cons, relStep_coeff_zero ws k r (hz r (List.mem_cons_self r rl))]
    exact ih (fun pr hm => hz pr (List.mem_cons_of_mem r hm)) ws k

theorem walkerStep_zero (rels : List Relations)
    (hz : ∀ rl ∈ rels, ∀ pr ∈ rl, pr.2 = 0) (ws : List Walker) (k : Nat) :
    walkerStep rels ws k = ws := by
  unfold walkerStep
  rcases hg : rels.get? k with _ | rl
  · rw [List.getD_eq_get?, hg]
    rfl
  · rw [List.getD_eq_get?, hg]
    exact foldl_relStep_zero rl (hz rl (List.get?_mem hg)) ws k

theorem next_state_zero (s : WalkingSystem)
    (hz : ∀ rl ∈ s.relations, ∀ pr ∈ rl, pr.2 = 0) : s.next_state = s := by
  have hfold : ∀ ks : List Nat, ∀ ws, ks.foldl (walkerStep s.relations) ws = ws := by
    intro ks
    induction ks with
    | nil => intro ws; rfl
    | cons k ks ih =>
      intro ws
      rw [List.foldl_cons, walkerStep_zero _ hz _ _]
      exact ih ws
  show { s with walkers := _ } = s
  rw [hfold]

theorem advance_zero (s : WalkingSystem)
    (hz : ∀ rl ∈ s.relations, ∀ pr ∈ rl, pr.2 = 0) : ∀ n, WalkingSystem.advance n s = s
  | 0 => rfl
  | n + 1 => by rw [advance_succ, advance_zero s hz n, next_state_zero s hz]

/-- Inserting a self-relation anywhere into one walker's relation dict does
not change what any `walkerStep` does. -/
theorem walkerStep_insert_self (R : List Relations) (a : Nat) (c : ℚ) (l1 l2 : Relations)
    (h : R.get? a = some (l1 ++ l2)) (ws : List Walker) (k : Nat) :
    walkerStep (R.set a (l1 ++ (a, c) :: l2)) ws k = walkerStep R ws k := by
  by_cases hk : k = a
  · subst hk
    obtain ⟨hlt, -⟩ := List.get?_eq_some.mp h
    unfold walkerStep
    rw [List.getD_eq_get?, List.get?_set_eq_of_lt _ hlt, List.getD_eq_get?, h]
    show (l1 ++ (k, c) :: l2).foldl _ ws = (l1 ++ l2).foldl _ ws
    rw [List.foldl_append, List.foldl_cons, relStep_self, ← List.foldl_append]
  · unfold walkerStep
    rw [List.getD_eq_get?, List.get?_set_ne _ _ (Ne.symm hk), ← List.getD_eq_get?]

/-! Lemmas about ring construction. -/

theorem makeRing_ne_nil_iff (st : List Vec3) (j : Fin 3) : makeRing st j ≠ [] ↔ st ≠ [] := by
  unfold makeRing
  simp [List.map_eq_nil_iff]

theorem closeRing_makeRing_isSome (st : List Vec3) :
    (closeRing (makeRing st)).isSome ↔ st ≠ [] := by
  unfold closeRing
  by_cases hst : st = []
  · subst hst
    simp [makeRing]
  · have hall : ∀ j : Fin 3, makeRing st j ≠ [] := fun j => (makeRing_ne_nil_iff st j).mpr hst
    simp [dif_pos hall, hst]

theorem closeRing_eq_some (ring r : Fin 3 → List ℚ) (h : closeRing ring = some r) :
    (∀ j, ring j ≠ []) ∧ r = fun j => ring j ++ [(ring j).headD 0] := by
  unfold closeRing at h
  by_cases hc : ∀ j, ring j ≠ []
  · rw [dif_pos hc] at h
    refine ⟨hc, ?_⟩
    injection h with h
    exact h.symm
  · rw [dif_neg hc] at h
    exact absurd h (by simp)

theorem buildRings_isSome : ∀ sts : List (List Vec3),
    (buildRings sts).isSome ↔ ∀ st ∈ sts, st ≠ []
  | [] => by simp [buildRings]
  | st :: sts => by
    have ih := buildRings_isSome sts
    unfold buildRings
    rcases hc : closeRing (makeRing st) with _ | r
    · have hst : st = [] := by
        by_contra hne
        have := (closeRing_makeRing_isSome st).mpr hne
        rw [hc] at this
        simp at this
      simp [hst]
    · have hst : st ≠ [] := by
        have : (closeRing (makeRing st)).isSome := by simp [hc]
        exact (closeRing_makeRing_isSome st).mp this
      rcases hb : buildRings sts with _ | rs
      · rw [hb] at ih
        simp only [Option.isSome_none, Bool.false_eq_true, false_iff] at ih
        simp only [Option.isSome_none, Bool.false_eq_true, false_iff]
        intro hall
        exact ih fun x hx => hall x (List.mem_cons_of_mem st hx)
      · rw [hb] at ih
        simp only [Option.isSome_some, true_iff] at ih
        simp only [Option.isSome_some, true_iff]
        intro x hx
        rcases List.mem_cons.mp hx with rfl | hx'
        · exact hst
        · exact ih x hx'

theorem buildRings_mem : ∀ (sts : List (List Vec3)) (rs : List (Fin 3 → List ℚ)),
    buildRings sts = some rs → ∀ r ∈ rs, ∃ st ∈ sts, closeRing (makeRing st) = some r
  | [], rs, hr, r, hm => by
    injection hr with hr
    subst hr
    simp at hm
  | st :: sts, rs, hr, r, hm => by
    unfold buildRings at hr
    rcases hc : closeRing (makeRing st) with _ | r0 <;> rw [hc] at hr
    · exact absurd hr (by simp)
    · rcases hb : buildRings sts with _ | rs0 <;> rw [hb] at hr
      · exact absurd hr (by simp)
      · injection hr with hr
        subst hr
        rcases List.mem_cons.mp hm with rfl | hm'
        · exact ⟨st, List.mem_cons_self st sts, hc⟩
        · obtain ⟨st', h1, h2⟩ := buildRings_mem sts rs0 hb r hm'
          exact ⟨st', List.mem_cons_of_mem st h1, h2⟩

theorem head?_close (l : List ℚ) (h : l ≠ []) :
    (l ++ [l.headD 0]).head? = some (l.headD 0) := by
  cases l with
  | nil => exact absurd rfl h
  | cons x xs => rfl

/-- Unfolding of a successful `compute_3d_vectrices` run. -/
theorem compute_eq_some_elim (s : WalkingSystem) (crvs rngs : List (Fin 3 → List ℚ))
    (s' : WalkingSystem) (h : s.compute_3d_vectrices = some (crvs, rngs, s')) :
    buildRings s.states = some rngs ∧ crvs = buildCurves s.walkers.length s.states ∧
      s' = { WalkingSystem.advance s.iterations s with
               curvesData := some crvs, ringsData := some rngs } := by
  unfold WalkingSystem.compute_3d_vectrices at h
  rcases hb : buildRings s.states with _ | rngs0 <;> rw [hb] at h
  · exact absurd h (by simp)
  · simp only [Option.some.injEq, Prod.mk.injEq] at h
    obtain ⟨h1, h2, h3⟩ := h
    subst h1
    subst h2
    subst h3
    exact ⟨rfl, rfl, rfl⟩

/-! The claims. -/

/-- C1 (counterexample): in the spec's concrete scenario (walkers at
(0,0,0) and (10,0,0), coefficients A→B = B→A = 0.5), one call to
`next_state` does NOT produce positions (5,0,0) and (5,0,0): the update is
sequential, not simultaneous. -/
theorem C1_counterexample :
    sysC1.next_state.get_current_state ≠ [![5, 0, 0], ![5, 0, 0]] := by
  intro h
  have h' : (WalkingSystem.mk [⟨![0, 0, 0], ![0, 0, 0]⟩, ⟨![10, 0, 0], ![10, 0, 0]⟩]
      [[(1, 1/2)], [(0, 1/2)]] 1 black none none).next_state.get_current_state
        = [![5, 0, 0], ![5, 0, 0]] := h
  rw [next_state_two] at h'
  have h2 : (fun i => (![10, 0, 0] : Vec3) i
      + (((![0, 0, 0] : Vec3) i + ((![10, 0, 0] : Vec3) i - (![0, 0, 0] : Vec3) i) * (1/2))
          - (![10, 0, 0] : Vec3) i) * (1/2)) = ![5, 0, 0] :=
    congrArg (fun l : List Vec3 => l.getD 1 (fun _ => 0)) h'
  have h3 := congrFun h2 0
  norm_num at h3

/-- C1 (amended): one call to `next_state` on the spec's concrete scenario
produces (5,0,0) for A and (7.5,0,0) for B — walker B reads walker A's
already-updated position. -/
theorem C1_amended_result :
    sysC1.next_state.get_current_state = [![5, 0, 0], ![15/2, 0, 0]] := by
  have e : sysC1.next_state = WalkingSystem.mk
      [⟨![0, 0, 0], fun i => (![0, 0, 0] : Vec3) i
          + ((![10, 0, 0] : Vec3) i - (![0, 0, 0] : Vec3) i) * (1/2)⟩,
       ⟨![10, 0, 0], fun i => (![10, 0, 0] : Vec3) i
          + (((![0, 0, 0] : Vec3) i + ((![10, 0, 0] : Vec3) i - (![0, 0, 0] : Vec3) i) * (1/2))
              - (![10, 0, 0] : Vec3) i) * (1/2)⟩]
      [[(1, 1/2)], [(0, 1/2)]] 1 black none none :=
    next_state_two ![0, 0, 0] ![10, 0, 0] ![0, 0, 0] ![10, 0, 0] (1/2) (1/2) 1 black none none
  rw [e]
  show [_, _] = _
  refine congrArg₂ _ ?_ (congrArg₂ _ ?_ rfl)
  · funext i
    fin_cases i <;> norm_num
  · funext i
    fin_cases i <;> norm_num

/-- C2: the state sequence has exactly `iterations` entries, its first entry
is the initial current state, and its `i`-th entry is the current state after
exactly `i` advancing steps (each yield is followed by one step). -/
theorem C2_states_spec (s : WalkingSystem) :
    s.states.length = s.iterations
    ∧ (0 < s.iterations → s.states.head? = some s.get_current_state)
    ∧ ∀ i, i < s.iterations →
        s.states.get? i = some ((WalkingSystem.advance i s).get_current_state) := by
  refine ⟨statesFrom_length s.iterations s, ?_, fun i hi => statesFrom_get? s.iterations s i hi⟩
  intro hpos
  show (statesFrom s.iterations s).head? = _
  rcases hn : s.iterations with _ | n
  · rw [hn] at hpos
    exact absurd hpos (lt_irrefl 0)
  · rfl

/-- Witness for C2 at the concrete system `sysC1`. -/
theorem C2_witness :
    0 < sysC1.iterations
    ∧ sysC1.states.head? = some sysC1.get_current_state
    ∧ sysC1.states.get? 0 = some ((WalkingSystem.advance 0 sysC1).get_current_state) :=
  ⟨by decide, (C2_states_spec sysC1).2.1 (by decide), (C2_states_spec sysC1).2.2 0 (by decide)⟩

/-- C3: every ring produced by `compute_3d_vectrices` has, on each of the
three axes, `num_walkers + 1` entries, the first equal to the last. -/
theorem C3_ring_invariant (s : WalkingSystem) (crvs rngs : List (Fin 3 → List ℚ))
    (s' : WalkingSystem) (h : s.compute_3d_vectrices = some (crvs, rngs, s')) :
    ∀ ring ∈ rngs, ∀ j : Fin 3,
      (ring j).length = s.walkers.length + 1 ∧ (ring j).head? = (ring j).getLast? := by
  obtain ⟨hb, -, -⟩ := compute_eq_some_elim s crvs rngs s' h
  intro ring hm j
  obtain ⟨st, hst, hcl⟩ := buildRings_mem s.states rngs hb ring hm
  obtain ⟨hne, hr⟩ := closeRing_eq_some (makeRing st) ring hcl
  have hlen : st.length = s.walkers.length := statesFrom_mem_length s.iterations s st hst
  subst hr
  constructor
  · show (makeRing st j ++ [(makeRing st j).headD 0]).length = s.walkers.length + 1
    rw [List.length_append]
    show (st.map _).length + 1 = s.walkers.length + 1
    rw [List.length_map, hlen]
  · show (makeRing st j ++ [(makeRing st j).headD 0]).head?
        = (makeRing st j ++ [(makeRing st j).headD 0]).getLast?
    rw [head?_close _ (hne j), List.getLast?_concat]

/-- Witness for C3 at the concrete one-walker system `sysT`. -/
theorem C3_witness :
    sysT.compute_3d_vectrices = some (crvsT, rngsT, sysT')
    ∧ ∀ ring ∈ rngsT, ∀ j : Fin 3,
        (ring j).length = sysT.walkers.length + 1 ∧ (ring j).head? = (ring j).getLast? :=
  ⟨rfl, C3_ring_invariant sysT crvsT rngsT sysT' rfl⟩

/-- C4: for two walkers at distinct positions with symmetric coefficient
`r`, the distance strictly decreases at every step and tends to 0 when
`0 < r < 1`, and strictly increases at every step when `-1 < r < 0`. -/
theorem C4_convergence_divergence (p q : Vec3) (r : ℚ) (hpq : p ≠ q) :
    (0 < r → r < 1 →
      (∀ n, twoDist p q r (n + 1) < twoDist p q r n)
      ∧ Filter.Tendsto (twoDist p q r) Filter.atTop (nhds 0))
    ∧ (-1 < r → r < 0 → ∀ n, twoDist p q r n < twoDist p q r (n + 1)) := by
  have hD0 : 0 < Real.sqrt (∑ i : Fin 3, ((q i : ℝ) - (p i : ℝ)) ^ 2) :=
    Real.sqrt_pos.mpr (sum_sq_pos_of_ne p q hpq)
  constructor
  · intro hr0 hr1
    have hr0' : (0 : ℝ) < (r : ℝ) := by exact_mod_cast hr0
    have hr1' : (r : ℝ) < 1 := by exact_mod_cast hr1
    have hc0 : (0 : ℝ) < (1 - (r : ℝ)) ^ 2 := pow_pos (by linarith) 2
    have hc1 : (1 - (r : ℝ)) ^ 2 < 1 := by nlinarith
    constructor
    · intro n
      rw [twoDist_eq, twoDist_eq]
      exact mul_lt_mul_of_pos_right
        (pow_lt_pow_right_of_lt_one hc0 hc1 (Nat.lt_succ_self n)) hD0
    · have ht := (tendsto_pow_atTop_nhds_zero_of_lt_one hc0.le hc1).mul_const
        (Real.sqrt (∑ i : Fin 3, ((q i : ℝ) - (p i : ℝ)) ^ 2))
      rw [zero_mul] at ht
      exact Filter.Tendsto.congr (fun n => (twoDist_eq p q r n).symm) ht
  · intro hrn1 hrn0
    have hr0' : (r : ℝ) < 0 := by exact_mod_cast hrn0
    have hc1 : (1 : ℝ) < (1 - (r : ℝ)) ^ 2 := by nlinarith
    intro n
    rw [twoDist_eq, twoDist_eq]
    exact mul_lt_mul_of_pos_right (pow_lt_pow_right hc1 (Nat.lt_succ_self n)) hD0

/-- Witness for C4 at the concrete positions (0,0,0), (10,0,0) and r = 1/2. -/
theorem C4_witness :
    ((![0, 0, 0] : Vec3) ≠ ![10, 0, 0])
    ∧ ((0 < (1/2 : ℚ) → (1/2 : ℚ) < 1 →
        (∀ n, twoDist ![0, 0, 0] ![10, 0, 0] (1/2) (n + 1)
            < twoDist ![0, 0, 0] ![10, 0, 0] (1/2) n)
        ∧ Filter.Tendsto (twoDist ![0, 0, 0] ![10, 0, 0] (1/2)) Filter.atTop (nhds 0))
      ∧ (-1 < (1/2 : ℚ) → (1/2 : ℚ) < 0 →
          ∀ n, twoDist ![0, 0, 0] ![10, 0, 0] (1/2) n
              < twoDist ![0, 0, 0] ![10, 0, 0] (1/2) (n + 1))) :=
  ⟨by decide, C4_convergence_divergence ![0, 0, 0] ![10, 0, 0] (1/2) (by decide)⟩

/-- C5: when every relation coefficient present is 0, any number of
`next_state` calls leaves every walker's position unchanged. -/
theorem C5_zero_relations_noop (s : WalkingSystem)
    (hz : ∀ rl ∈ s.relations, ∀ pr ∈ rl, pr.2 = 0) (n : Nat) :
    (WalkingSystem.advance n s).get_current_state = s.get_current_state := by
  rw [advance_zero s hz n]

/-- Witness for C5 at the concrete zero-coefficient system `sysZ`. -/
theorem C5_witness :
    (∀ rl ∈ sysZ.relations, ∀ pr ∈ rl, pr.2 = 0)
    ∧ (WalkingSystem.advance 5 sysZ).get_current_state = sysZ.get_current_state :=
  ⟨by decide, C5_zero_relations_noop sysZ (by decide) 5⟩

/-- C6: reading `curves` or `rings` on a freshly constructed system is an
error, and after a successful `compute_3d_vectrices` both reads return the
computed data. -/
theorem C6_guarded_access (w : List Walker) (rels : List Relations) (it : Nat)
    (cm : ColorMap) (s : WalkingSystem) :
    (WalkingSystem.init w rels it cm).curves
        = Except.error "No curves vectrices values found.Please use compute_3d_vectrices() first."
    ∧ (WalkingSystem.init w rels it cm).rings
        = Except.error "No rings vectrices values found.Please use compute_3d_vectrices() first."
    ∧ ∀ crvs rngs s', s.compute_3d_vectrices = some (crvs, rngs, s') →
        s'.curves = Except.ok crvs ∧ s'.rings = Except.ok rngs := by
  refine ⟨rfl, rfl, fun crvs rngs s' h => ?_⟩
  obtain ⟨-, -, hs⟩ := compute_eq_some_elim s crvs rngs s' h
  subst hs
  exact ⟨rfl, rfl⟩

/-- Witness for C6 at the concrete one-walker system `sysT`. -/
theorem C6_witness :
    (WalkingSystem.init [Walker.init ![1, 2, 3]] [[]] 1 black).curves
        = Except.error "No curves vectrices values found.Please use compute_3d_vectrices() first."
    ∧ sysT.compute_3d_vectrices = some (crvsT, rngsT, sysT')
    ∧ sysT'.curves = Except.ok crvsT ∧ sysT'.rings = Except.ok rngsT :=
  ⟨(C6_guarded_access [Walker.init ![1, 2, 3]] [[]] 1 black sysT).1, rfl,
    (C6_guarded_access [Walker.init ![1, 2, 3]] [[]] 1 black sysT).2.2 crvsT rngsT sysT' rfl⟩

/-- C7: evaluating a colormap with channel values in [0, 255] at the start
(resp. end) of the input range with `max_out = 255` returns the start
(resp. end) color exactly. -/
theorem C7_colormap_endpoints (cm : ColorMap) (sx ex : ℚ)
    (hs : ∀ i, 0 ≤ cm.start i ∧ cm.start i ≤ 255)
    (he : ∀ i, 0 ≤ cm.end_ i ∧ cm.end_ i ≤ 255)
    (hne : sx ≠ ex) :
    cm.call sx sx ex 255 = cm.start ∧ cm.call ex sx ex 255 = cm.end_ := by
  constructor
  · funext i
    show clamp (lin_interp sx sx ex (cm.start i) (cm.end_ i) / 255 * 255) 0 255 = cm.start i
    have hv : lin_interp sx sx ex (cm.start i) (cm.end_ i) / 255 * 255 = cm.start i := by
      unfold lin_interp
      rw [sub_self, zero_mul, zero_div, zero_add]
      exact div_mul_cancel₀ _ (by norm_num)
    rw [hv]
    unfold clamp
    rw [if_neg (not_lt.mpr (hs i).1), if_neg (not_lt.mpr (hs i).2)]
  · funext i
    show clamp (lin_interp ex sx ex (cm.start i) (cm.end_ i) / 255 * 255) 0 255 = cm.end_ i
    have hv : lin_interp ex sx ex (cm.start i) (cm.end_ i) / 255 * 255 = cm.end_ i := by
      unfold lin_interp
      have hd : ex - sx ≠ 0 := sub_ne_zero.mpr (Ne.symm hne)
      field_simp
    rw [hv]
    unfold clamp
    rw [if_neg (not_lt.mpr (he i).1), if_neg (not_lt.mpr (he i).2)]

/-- Witness for C7 at the concrete colormap `cmap7` over the range [2, 30]. -/
theorem C7_witness :
    (∀ i, 0 ≤ cmap7.start i ∧ cmap7.start i ≤ 255)
    ∧ (∀ i, 0 ≤ cmap7.end_ i ∧ cmap7.end_ i ≤ 255)
    ∧ (2 : ℚ) ≠ 30
    ∧ cmap7.call 2 2 30 255 = cmap7.start ∧ cmap7.call 30 2 30 255 = cmap7.end_ :=
  ⟨by decide, by decide, by decide,
    C7_colormap_endpoints cmap7 2 30 (by decide) (by decide) (by decide)⟩

/-- C8: inserting a self-relation (any coefficient, at any place in a
walker's relation dict) does not change the result of `next_state`. -/
theorem C8_self_relation_noop (s : WalkingSystem) (a : Nat) (c : ℚ) (l1 l2 : Relations)
    (h : s.relations.get? a = some (l1 ++ l2)) :
    ({ s with relations := s.relations.set a (l1 ++ (a, c) :: l2) }
        : WalkingSystem).next_state.walkers = s.next_state.walkers
    ∧ ({ s with relations := s.relations.set a (l1 ++ (a, c) :: l2) }
        : WalkingSystem).next_state.get_current_state = s.next_state.get_current_state := by
  have hw : walkerStep (s.relations.set a (l1 ++ (a, c) :: l2)) = walkerStep s.relations :=
    funext fun ws => funext fun k => walkerStep_insert_self s.relations a c l1 l2 h ws k
  have hwk : ({ s with relations := s.relations.set a (l1 ++ (a, c) :: l2) }
      : WalkingSystem).next_state.walkers = s.next_state.walkers := by
    show (List.range s.walkers.length).foldl
        (walkerStep (s.relations.set a (l1 ++ (a, c) :: l2))) s.walkers
      = (List.range s.walkers.length).foldl (walkerStep s.relations) s.walkers
    rw [hw]
  exact ⟨hwk, congrArg (List.map Walker.position) hwk⟩

/-- Witness for C8 at the concrete system `sysC8`. -/
theorem C8_witness :
    sysC8.relations.get? 0 = some ([] ++ [(1, 3)])
    ∧ ({ sysC8 with relations := sysC8.relations.set 0 ([] ++ (0, 5) :: [(1, 3)]) }
        : WalkingSystem).next_state.walkers = sysC8.next_state.walkers :=
  ⟨by decide, (C8_self_relation_noop sysC8 0 5 [] [(1, 3)] (by decide)).1⟩

/-- C9: `compute_3d_vectrices` succeeds exactly when the system has at least
one walker or performs no iterations; the ring-closing indexing error is
unreachable under the at-least-one-walker precondition, and is reached with
zero walkers and at least one iteration. -/
theorem C9_compute_requires_walker (s : WalkingSystem) :
    s.compute_3d_vectrices.isSome ↔ (s.walkers ≠ [] ∨ s.iterations = 0) := by
  have hiff : s.compute_3d_vectrices.isSome = (buildRings s.states).isSome := by
    unfold WalkingSystem.compute_3d_vectrices
    rcases hb : buildRings s.states with _ | rngs <;> simp
  rw [hiff, buildRings_isSome]
  constructor
  · intro hall
    by_cases hit : s.iterations = 0
    · exact Or.inr hit
    · left
      intro hwe
      rcases hn : s.iterations with _ | n
      · exact hit hn
      · have hgcs : s.get_current_state = [] := by
          rw [WalkingSystem.get_current_state, hwe]
          rfl
        have hmem : ([] : List Vec3) ∈ s.states := by
          show _ ∈ statesFrom s.iterations s
          rw [hn]
          show _ ∈ s.get_current_state :: _
          rw [hgcs]
          exact List.mem_cons_self _ _
        exact (hall [] hmem) rfl
  · intro hor st hst
    rcases hor with hw | hit
    · intro hste
      have hl := statesFrom_mem_length s.iterations s st hst
      rw [hste] at hl
      exact hw (List.length_eq_zero.mp hl.symm)
    · rw [show s.states = statesFrom s.iterations s from rfl, hit] at hst
      exact absurd hst (List.not_mem_nil st)

/-- Witness for C9 at the concrete one-walker system `sysT`. -/
theorem C9_witness :
    sysT.compute_3d_vectrices.isSome ↔ (sysT.walkers ≠ [] ∨ sysT.iterations = 0) :=
  C9_compute_requires_walker sysT

/-- C10: neither advancing the system any number of steps nor running
`compute_3d_vectrices` ever changes any walker's `start_position`. -/
theorem C10_start_position_frame (s : WalkingSystem) :
    (∀ n, (WalkingSystem.advance n s).walkers.map Walker.start_position
        = s.walkers.map Walker.start_position)
    ∧ ∀ crvs rngs s', s.compute_3d_vectrices = some (crvs, rngs, s') →
        s'.walkers.map Walker.start_position = s.walkers.map Walker.start_position := by
  refine ⟨fun n => advance_map_start n s, fun crvs rngs s' h => ?_⟩
  obtain ⟨-, -, hs⟩ := compute_eq_some_elim s crvs rngs s' h
  subst hs
  exact advance_map_start s.iterations s

/-- Witness for C10 at the concrete one-walker system `sysT`. -/
theorem C10_witness :
    (WalkingSystem.advance 3 sysT).walkers.map Walker.start_position
        = sysT.walkers.map Walker.start_position
    ∧ sysT.compute_3d_vectrices = some (crvsT, rngsT, sysT')
    ∧ sysT'.walkers.map Walker.start_position = sysT.walkers.map Walker.start_position :=
  ⟨(C10_start_position_frame sysT).1 3, rfl,
    (C10_start_position_frame sysT).2 crvsT rngsT sysT' rfl⟩

end Walkers
